import Mathlib

/-!
Verification of the tokenizer and recursive-descent parser/evaluator of the
calculator in src/src/main.rs.

Numeric values: the source computes over IEEE f64.  Every claim under
scrutiny involves only small integers combined by +, -, *, and integer
exponents, on which f64 arithmetic is exact, so the embedding models the
value type as ℚ (exact rational arithmetic).  The deviations of this model
from f64 (rounding of long decimal literals, division by zero yielding 0
rather than infinity, fractional exponents) are outside every claim treated
here and are flagged at the definitions concerned.
-/

namespace Calculator

/-- Token type of the calculator (enum Token, main.rs lines 3-14).
`Number` carries the literal's numeric value, modelled as ℚ. -/
inductive Token where
  | Number (value : ℚ)
  | Plus
  | Minus
  | Star
  | Slash
  | Caret
  | OpenParent
  | CloseParent
  | Eof
deriving DecidableEq

/-- Whitespace characters consumed without producing a token
(main.rs line 54). -/
def isWhitespaceChar (c : Char) : Bool :=
  c = ' ' || c = '\t' || c = '\n' || c = '\r'

/-- The characters that start a new operand, from the implicit-multiplication
guard (main.rs line 23): an open parenthesis, an ASCII digit, or a dot. -/
def startsOperand (c : Char) : Bool :=
  c = '(' || c.isDigit || c = '.'

/-- Whether the last emitted token (if any) is operand-ending, from the
implicit-multiplication guard (main.rs lines 21-22): a Number or a
CloseParent.  With no last token the guard in the source never fires. -/
def lastIsOperand : Option Token → Bool
  | some (Token.Number _) => true
  | some Token.CloseParent => true
  | _ => false

/-- The full implicit-multiplication condition (main.rs lines 21-26): a Star
is inserted exactly when the last emitted token is operand-ending and the
current character starts a new operand. -/
def implicitStar (last : Option Token) (c : Char) : Bool :=
  lastIsOperand last && startsOperand c

/-- The characters the tokenizer's match recognizes (main.rs lines 29-54):
digits, the dot, the six operator and parenthesis characters, and
whitespace.  Every other character falls to the catch-all arm at main.rs
line 55, which advances past it without emitting anything. -/
def recognizedChar (c : Char) : Bool :=
  c.isDigit || c = '.' || c = '+' || c = '-' || c = '*' || c = '/' ||
    c = '^' || c = '(' || c = ')' || isWhitespaceChar c

/-- The numeric-literal scan (the inner while loop of main.rs lines 33-44):
starting from the current character, take a maximal run of digits and at
most one dot.  Returns the run and the remaining characters. -/
def scanNumber : List Char → Bool → List Char × List Char
  | [], _ => ([], [])
  | c :: rest, hasDot =>
    if c.isDigit then
      let p := scanNumber rest hasDot
      (c :: p.1, p.2)
    else if c = '.' && !hasDot then
      let p := scanNumber rest true
      (c :: p.1, p.2)
    else ([], c :: rest)

/-- Value of a list of ASCII digits read in base 10. -/
def digitsToNat (ds : List Char) : ℕ :=
  ds.foldl (fun a c => 10 * a + (c.toNat - 48)) 0

/-- Exact value of a numeric-literal run (digits with at most one dot):
integer part plus fractional part.  This is the mathematical value of the
literal; f64 parsing rounds it to the nearest double, which agrees on the
short literals all claims use. -/
def numberValue (s : List Char) : ℚ :=
  let ip := s.takeWhile (fun c => c ≠ '.')
  let fp := (s.dropWhile (fun c => c ≠ '.')).drop 1
  (digitsToNat ip : ℚ) + (digitsToNat fp : ℚ) / (10 : ℚ) ^ fp.length

/-- The literal-construction step (main.rs line 45): Rust's
s.parse::<f64>().unwrap() on a run of digits and at most one dot.  The parse
succeeds iff the run contains at least one digit (the only possible run
without a digit is the lone \x22.\x22, which f64 parsing rejects, making the
unwrap panic); `none` models that panic. -/
def parseNumberText (s : List Char) : Option ℚ :=
  if s.any (fun c => c.isDigit) then some (numberValue s) else none

/-- The tokenizer scan loop (main.rs lines 20-57).  `fuel` bounds the number
of iterations; every iteration consumes at least one character, so any fuel
exceeding the character count reproduces the source loop exactly.  `none`
models the panic of the unwrap at main.rs line 45 (fuel exhaustion also
yields `none`, but never occurs at the fuel `tokenize` supplies). -/
def tokenizeLoop : ℕ → List Token → List Char → Option (List Token)
  | 0, _, _ => none
  | _ + 1, tokens, [] => some tokens
  | fuel + 1, tokens, c :: rest =>
    let tokens := if implicitStar tokens.getLast? c then tokens ++ [Token.Star] else tokens
    if c.isDigit || c = '.' then
      let scanned := scanNumber (c :: rest) false
      match parseNumberText scanned.1 with
      | some q => tokenizeLoop fuel (tokens ++ [Token.Number q]) scanned.2
      | none => none
    else if c = '+' then tokenizeLoop fuel (tokens ++ [Token.Plus]) rest
    else if c = '-' then tokenizeLoop fuel (tokens ++ [Token.Minus]) rest
    else if c = '*' then tokenizeLoop fuel (tokens ++ [Token.Star]) rest
    else if c = '/' then tokenizeLoop fuel (tokens ++ [Token.Slash]) rest
    else if c = '^' then tokenizeLoop fuel (tokens ++ [Token.Caret]) rest
    else if c = '(' then tokenizeLoop fuel (tokens ++ [Token.OpenParent]) rest
    else if c = ')' then tokenizeLoop fuel (tokens ++ [Token.CloseParent]) rest
    else if isWhitespaceChar c then tokenizeLoop fuel tokens rest
    else tokenizeLoop fuel tokens rest

/-- fn tokenize (main.rs lines 16-60): scan the whole input, then append the
Eof token.  `none` models the panic on an unparseable numeric run. -/
def tokenize (input : String) : Option (List Token) :=
  (tokenizeLoop (input.data.length + 1) [] input.data).map (fun ts => ts ++ [Token.Eof])

/-- The ways a parse can abort (Rust panics), distinguished by site:
`indexOutOfRange` is the index panic in curr (main.rs line 73) when pos is
past the end of the token vector; `unexpectedToken` is the explicit panic in
primary (main.rs line 167); `outOfFuel` is an artifact of the fueled
embedding and never occurs at the fuel `parse` supplies. -/
inductive ParseFailure where
  | indexOutOfRange
  | unexpectedToken (t : Token)
  | outOfFuel
deriving DecidableEq

/-- fn curr (main.rs lines 72-74): read the token at the cursor.  Rust's
vector indexing panics when pos is out of range; that panic is the
`indexOutOfRange` error. -/
def curr (tokens : List Token) (pos : ℕ) : Except ParseFailure Token :=
  match tokens[pos]? with
  | some t => Except.ok t
  | none => Except.error ParseFailure.indexOutOfRange

/-- f64::powf (used at main.rs line 131), modelled over ℚ: exact for integer
exponents (where f64 powf is exact on the in-range integer claims here).  A
fractional exponent generally has no rational value; the model maps that
case to 0.  No claim involves a fractional exponent. -/
def powf (base exponent : ℚ) : ℚ :=
  if exponent.den = 1 then base ^ exponent.num else 0

mutual

/-- fn expr (main.rs lines 84-103): parse a term, then fold additive
operators left-to-right via exprLoop. -/
def expr : ℕ → List Token → ℕ → Except ParseFailure (ℚ × ℕ)
  | 0, _, _ => Except.error ParseFailure.outOfFuel
  | fuel + 1, tokens, pos => do
    let (left, p) ← term fuel tokens pos
    exprLoop fuel tokens left p

/-- The loop of fn expr (main.rs lines 86-101): while the current token is
Plus or Minus, consume it, parse the next term, and fold immediately. -/
def exprLoop : ℕ → List Token → ℚ → ℕ → Except ParseFailure (ℚ × ℕ)
  | 0, _, _, _ => Except.error ParseFailure.outOfFuel
  | fuel + 1, tokens, left, pos => do
    let t ← curr tokens pos
    match t with
    | Token.Plus => do
        let (right, p) ← term fuel tokens (pos + 1)
        exprLoop fuel tokens (left + right) p
    | Token.Minus => do
        let (right, p) ← term fuel tokens (pos + 1)
        exprLoop fuel tokens (left - right) p
    | _ => Except.ok (left, pos)

/-- fn term (main.rs lines 105-124): parse a factor, then fold
multiplicative operators left-to-right via termLoop. -/
def term : ℕ → List Token → ℕ → Except ParseFailure (ℚ × ℕ)
  | 0, _, _ => Except.error ParseFailure.outOfFuel
  | fuel + 1, tokens, pos => do
    let (left, p) ← factor fuel tokens pos
    termLoop fuel tokens left p

/-- The loop of fn term (main.rs lines 107-122): while the current token is
Star or Slash, consume it, parse the next factor, and fold immediately.
Division is exact ℚ division (division by zero yields 0 in ℚ where f64
yields infinity or NaN; no claim involves division by zero). -/
def termLoop : ℕ → List Token → ℚ → ℕ → Except ParseFailure (ℚ × ℕ)
  | 0, _, _, _ => Except.error ParseFailure.outOfFuel
  | fuel + 1, tokens, left, pos => do
    let t ← curr tokens pos
    match t with
    | Token.Star => do
        let (right, p) ← factor fuel tokens (pos + 1)
        termLoop fuel tokens (left * right) p
    | Token.Slash => do
        let (right, p) ← factor fuel tokens (pos + 1)
        termLoop fuel tokens (left / right) p
    | _ => Except.ok (left, pos)

/-- fn factor (main.rs lines 126-135): parse a unary expression; if a Caret
follows, consume it and recurse into factor itself on the right-hand side
(right-associativity), applying powf to the pair. -/
def factor : ℕ → List Token → ℕ → Except ParseFailure (ℚ × ℕ)
  | 0, _, _ => Except.error ParseFailure.outOfFuel
  | fuel + 1, tokens, pos => do
    let (left, p) ← unary fuel tokens pos
    let t ← curr tokens p
    match t with
    | Token.Caret => do
        let (right, p2) ← factor fuel tokens (p + 1)
        Except.ok (powf left right, p2)
    | _ => Except.ok (left, p)

/-- fn unary (main.rs lines 137-151): absorb a chain of Plus/Minus tokens
into an accumulated sign, then apply the sign to the primary's value. -/
def unary : ℕ → List Token → ℕ → Except ParseFailure (ℚ × ℕ)
  | 0, _, _ => Except.error ParseFailure.outOfFuel
  | fuel + 1, tokens, pos => unaryLoop fuel tokens 1 pos

/-- The loop of fn unary (main.rs lines 139-150), carrying the accumulated
sign: Minus flips it, Plus leaves it, anything else ends the chain and the
sign multiplies the primary's value. -/
def unaryLoop : ℕ → List Token → ℚ → ℕ → Except ParseFailure (ℚ × ℕ)
  | 0, _, _, _ => Except.error ParseFailure.outOfFuel
  | fuel + 1, tokens, sign, pos => do
    let t ← curr tokens pos
    match t with
    | Token.Plus => unaryLoop fuel tokens sign (pos + 1)
    | Token.Minus => unaryLoop fuel tokens (-sign) (pos + 1)
    | _ => do
        let (v, p) ← primary fuel tokens pos
        Except.ok (sign * v, p)

/-- fn primary (main.rs lines 153-170): a Number resolves to its value and
advances; an OpenParent recurses into expr and then consumes ONE token
unconditionally (main.rs line 163) whether or not it is a CloseParent, and
whether or not that position is even in range; any other token is the
explicit panic (modelled as unexpectedToken). -/
def primary : ℕ → List Token → ℕ → Except ParseFailure (ℚ × ℕ)
  | 0, _, _ => Except.error ParseFailure.outOfFuel
  | fuel + 1, tokens, pos => do
    let t ← curr tokens pos
    match t with
    | Token.Number n => Except.ok (n, pos + 1)
    | Token.OpenParent => do
        let (v, p) ← expr fuel tokens (pos + 1)
        Except.ok (v, p + 1)
    | other => Except.error (ParseFailure.unexpectedToken other)

end

/-- fn parse (main.rs lines 80-82): run expr from position 0.  Note there is
no check that the cursor reached the Eof token afterwards.  The fuel
6 * length + 6 exceeds the depth of any call chain the grammar can make on
the given tokens (each descent through the five grammar levels costs at most
six calls before either consuming a token or returning). -/
def parse (tokens : List Token) : Except ParseFailure (ℚ × ℕ) :=
  expr (6 * tokens.length + 6) tokens 0

/-- End-to-end evaluation of one input line as the REPL does (main.rs lines
182-195): tokenize, then parse, keeping only the numeric result.  `none` is
the tokenizer's panic; `some (Except.error e)` is a parser panic; `some
(Except.ok v)` is the printed result. -/
def evalString (input : String) : Option (Except ParseFailure ℚ) :=
  (tokenize input).map (fun ts => (parse ts).map Prod.fst)

end Calculator

namespace Calculator

theorem scanNumber_append (cs : List Char) (b : Bool) :
    (scanNumber cs b).1 ++ (scanNumber cs b).2 = cs := by
  induction cs generalizing b with
  | nil => simp [scanNumber]
  | cons c rest ih =>
    simp only [scanNumber]
    by_cases hd : c.isDigit
    · simp [hd, ih]
    · by_cases hdot : (c = '.' && !b) = true
      · simp [hd, hdot, ih]
      · simp [hd, hdot]

theorem scanNumber_snd_length (cs : List Char) (b : Bool) :
    (scanNumber cs b).2.length ≤ cs.length := by
  have h := scanNumber_append cs b
  calc (scanNumber cs b).2.length
      ≤ (scanNumber cs b).1.length + (scanNumber cs b).2.length := Nat.le_add_left _ _
    _ = cs.length := by rw [← List.length_append, h]

theorem scanNumber_snd_mem (cs : List Char) (b : Bool) (x : Char)
    (hx : x ∈ (scanNumber cs b).2) : x ∈ cs := by
  have h := scanNumber_append cs b
  rw [← h]
  exact List.mem_append_right _ hx

theorem tokenizeLoop_isSome : ∀ (fuel : ℕ) (tokens : List Token) (cs : List Char),
    cs.length < fuel → (∀ c ∈ cs, c ≠ '.') →
    (tokenizeLoop fuel tokens cs).isSome = true := by
  intro fuel
  induction fuel with
  | zero => intro _ cs h _; omega
  | succ n ih =>
    intro tokens cs hlen hdot
    cases cs with
    | nil => simp [tokenizeLoop]
    | cons c rest =>
      have hcne : c ≠ '.' := hdot c (List.mem_cons_self _ _)
      have hrl : rest.length < n := by
        simpa using Nat.lt_of_succ_lt_succ hlen
      have hrd : ∀ x ∈ rest, x ≠ '.' := fun x hx => hdot x (List.mem_cons_of_mem _ hx)
      simp only [tokenizeLoop]
      by_cases hdig : c.isDigit
      · have hcond : (c.isDigit || c = '.') = true := by simp [hdig]
        simp only [hcond, if_true]
        have hscan : scanNumber (c :: rest) false =
            (c :: (scanNumber rest false).1, (scanNumber rest false).2) := by
          simp [scanNumber, hdig]
        rw [hscan]
        have hparse : parseNumberText (c :: (scanNumber rest false).1) =
            some (numberValue (c :: (scanNumber rest false).1)) := by
          simp [parseNumberText, hdig]
        simp only [hparse]
        apply ih
        · exact Nat.lt_of_le_of_lt (scanNumber_snd_length rest false) hrl
        · exact fun x hx => hrd x (scanNumber_snd_mem rest false x hx)
      · have hcond : (c.isDigit || c = '.') = false := by simp [hdig, hcne]
        simp only [hcond, Bool.false_eq_true, if_false]
        split
        · exact ih _ _ hrl hrd
        · split
          · exact ih _ _ hrl hrd
          · split
            · exact ih _ _ hrl hrd
            · split
              · exact ih _ _ hrl hrd
              · split
                · exact ih _ _ hrl hrd
                · split
                  · exact ih _ _ hrl hrd
                  · split
                    · exact ih _ _ hrl hrd
                    · split
                      · exact ih _ _ hrl hrd
                      · exact ih _ _ hrl hrd

theorem eof_not_mem_append (acc : List Token) (t : Token)
    (hacc : Token.Eof ∉ acc) (ht : t ≠ Token.Eof) : Token.Eof ∉ acc ++ [t] := by
  intro h
  rcases List.mem_append.mp h with h1 | h2
  · exact hacc h1
  · simp at h2
    exact ht h2.symm

theorem eof_not_mem_star_ins (acc : List Token) (c : Char)
    (hacc : Token.Eof ∉ acc) :
    Token.Eof ∉ (if implicitStar acc.getLast? c then acc ++ [Token.Star] else acc) := by
  split
  · exact eof_not_mem_append acc Token.Star hacc (by simp)
  · exact hacc

theorem tokenizeLoop_no_eof : ∀ (fuel : ℕ) (acc : List Token) (cs : List Char)
    (ts : List Token), tokenizeLoop fuel acc cs = some ts →
    Token.Eof ∉ acc → Token.Eof ∉ ts := by
  intro fuel
  induction fuel with
  | zero => intro acc cs ts h _; simp [tokenizeLoop] at h
  | succ n ih =>
    intro acc cs ts h hacc
    cases cs with
    | nil =>
      simp [tokenizeLoop] at h
      exact h ▸ hacc
    | cons c rest =>
      simp only [tokenizeLoop] at h
      have hins := eof_not_mem_star_ins acc c hacc
      set acc2 := if implicitStar acc.getLast? c then acc ++ [Token.Star] else acc with hacc2
      split at h
      · split at h
        · exact ih _ _ _ h (eof_not_mem_append acc2 _ hins (by simp))
        · exact absurd h (by simp)
      · split at h
        · exact ih _ _ _ h (eof_not_mem_append acc2 _ hins (by simp))
        · split at h
          · exact ih _ _ _ h (eof_not_mem_append acc2 _ hins (by simp))
          · split at h
            · exact ih _ _ _ h (eof_not_mem_append acc2 _ hins (by simp))
            · split at h
              · exact ih _ _ _ h (eof_not_mem_append acc2 _ hins (by simp))
              · split at h
                · exact ih _ _ _ h (eof_not_mem_append acc2 _ hins (by simp))
                · split at h
                  · exact ih _ _ _ h (eof_not_mem_append acc2 _ hins (by simp))
                  · split at h
                    · exact ih _ _ _ h (eof_not_mem_append acc2 _ hins (by simp))
                    · split at h
                      · exact ih _ _ _ h hins
                      · exact ih _ _ _ h hins

theorem implicit_star_iff :
    ∀ (last : Option Token) (c : Char),
      implicitStar last c = true ↔
        (((∃ q, last = some (Token.Number q)) ∨ last = some Token.CloseParent) ∧
          (c = '(' ∨ c.isDigit = true ∨ c = '.')) := by
  intro last c
  cases last with
  | none => simp [implicitStar, lastIsOperand]
  | some t =>
    cases t <;>
      simp [implicitStar, lastIsOperand, startsOperand, or_assoc]

/-- C1 counterexample: the claim says tokenizing and parsing the input
"-3^2" yields -9, the unary minus binding looser than the caret.  On the
code it is the other way round: unary applies the sign to the primary's
value 3 before factor applies the caret, so the input evaluates to
(-3)^2 = 9, not -9. -/
theorem unary_minus_caret_counterexample :
    evalString ("-3^2") = some (Except.ok 9) ∧ (9 : ℚ) ≠ -9 :=
  ⟨by with_unfolding_all rfl, by norm_num⟩

/-- C1 (amended): evaluating "-3^2" yields 9: the unary minus binds tighter
than the caret (unary applies the sign to the primary before factor applies
the exponent), so forcing the other grouping needs parentheses: "-(3^2)"
yields -9.  Unary chains still fold by parity: "--3" yields 3. -/
theorem unary_minus_binds_before_caret :
    evalString ("-3^2") = some (Except.ok 9) ∧
    evalString ("-(3^2)") = some (Except.ok (-9)) ∧
    evalString ("--3") = some (Except.ok 3) :=
  ⟨by with_unfolding_all rfl, by with_unfolding_all rfl, by with_unfolding_all rfl⟩

/-- C2 counterexample: the claim says no input makes tokenize abort, but on
the input "." the numeric run is the lone dot, the f64 parse of that text
fails, and the unwrap at main.rs line 45 panics (modelled as none). -/
theorem tokenize_dot_counterexample : tokenize (".") = none := by
  with_unfolding_all rfl

/-- C2 (amended): tokenize returns a token sequence on every input that
contains no dot character — in particular unrecognized characters are not
errors: the scan loop silently skips any character that is not a digit,
dot, operator, parenthesis, or whitespace.  (The only aborts are numeric
runs consisting of a lone dot, as in the counterexample.) -/
theorem tokenize_total_no_dot :
    (∀ input : String, (∀ c ∈ input.data, c ≠ '.') → (tokenize input).isSome = true) ∧
    (∀ (fuel : ℕ) (tokens : List Token) (c : Char) (rest : List Char),
      recognizedChar c = false →
      tokenizeLoop (fuel + 1) tokens (c :: rest) = tokenizeLoop fuel tokens rest) := by
  constructor
  · intro input hdot
    unfold tokenize
    have hs := tokenizeLoop_isSome (input.data.length + 1) [] input.data
      (Nat.lt_succ_self _) hdot
    cases hm : tokenizeLoop (input.data.length + 1) [] input.data with
    | none => rw [hm] at hs; simp at hs
    | some ts => simp
  · intro fuel tokens c rest h
    have hs : c.isDigit = false ∧ ¬ c = '.' ∧ ¬ c = '+' ∧ ¬ c = '-' ∧ ¬ c = '*' ∧
        ¬ c = '/' ∧ ¬ c = '^' ∧ ¬ c = '(' ∧ ¬ c = ')' ∧ isWhitespaceChar c = false := by
      simpa [recognizedChar, and_assoc] using h
    obtain ⟨h1, h2, h3, h4, h5, h6, h7, h8, h9, h10⟩ := hs
    simp [tokenizeLoop, implicitStar, startsOperand, h1, h2, h3, h4, h5, h6, h7, h8, h9, h10]

/-- C2 witness: a dot-free input on which tokenize succeeds, and an
unrecognized character (the hash sign) that the loop silently skips. -/
theorem tokenize_total_no_dot_witness :
    (tokenize ("1+2")).isSome = true ∧
    tokenizeLoop 1 [] ['#'] = tokenizeLoop 0 [] [] :=
  ⟨tokenize_total_no_dot.1 ("1+2") (by decide),
   tokenize_total_no_dot.2 0 [] '#' [] (by decide)⟩

/-- C3: once primary has matched an OpenParent at pos and the inner expr
call has returned value v at position p, primary consumes exactly one token
unconditionally — the statement puts no constraint whatsoever on the token
sitting at p (it need not be a CloseParent, or exist at all) — and returns
the inner value v at position p + 1. -/
theorem primary_blind_consume (fuel : ℕ) (tokens : List Token) (pos : ℕ) (v : ℚ) (p : ℕ)
    (hopen : tokens[pos]? = some Token.OpenParent)
    (hexpr : expr fuel tokens (pos + 1) = Except.ok (v, p)) :
    primary (fuel + 1) tokens pos = Except.ok (v, p + 1) := by
  simp [primary, curr, hopen, hexpr, Bind.bind, Except.bind]

/-- C3 witness: on the tokens of "(1" — where the token after the inner
expr is Eof, not CloseParent — primary still consumes it and returns the
inner value 1, its cursor ending at 3 (past the end of the sequence). -/
theorem primary_blind_consume_witness :
    primary 21 [Token.OpenParent, Token.Number 1, Token.Eof] 0 = Except.ok (1, 3) :=
  primary_blind_consume 20 [Token.OpenParent, Token.Number 1, Token.Eof] 0 1 2
    (by with_unfolding_all rfl) (by with_unfolding_all rfl)

/-- C4: on the tokens of "(1" (an opened parenthesis never closed) the
parser's blind consume pushes the cursor past the Eof token, curr indexes
the token vector out of range, and parse fails with the out-of-range panic,
not the intended unexpected-token panic of primary. -/
theorem unclosed_paren_index_out_of_range :
    tokenize ("(1") = some [Token.OpenParent, Token.Number 1, Token.Eof] ∧
    parse [Token.OpenParent, Token.Number 1, Token.Eof] =
      Except.error ParseFailure.indexOutOfRange ∧
    ∀ t : Token, (Except.error ParseFailure.indexOutOfRange : Except ParseFailure (ℚ × ℕ)) ≠
      Except.error (ParseFailure.unexpectedToken t) :=
  ⟨by with_unfolding_all rfl, by with_unfolding_all rfl, by intro t; simp⟩

/-- C5 counterexample: the claim says a successful parse consumes every
token before the terminating Eof.  On the input "1)" the parse succeeds
with value 1 while the cursor stops at position 1, where a CloseParent — a
token other than Eof — is left unconsumed (Eof sits at position 2). -/
theorem parse_trailing_token_counterexample :
    tokenize ("1)") = some [Token.Number 1, Token.CloseParent, Token.Eof] ∧
    parse [Token.Number 1, Token.CloseParent, Token.Eof] = Except.ok (1, 1) ∧
    [Token.Number 1, Token.CloseParent, Token.Eof][1]? = some Token.CloseParent ∧
    Token.CloseParent ≠ Token.Eof :=
  ⟨by with_unfolding_all rfl, by with_unfolding_all rfl, by with_unfolding_all rfl,
   by simp⟩

/-- C5 (amended): a successful parse need not consume the full token
sequence: parse returns the result of the top-level expr as is, with no
check that the cursor reached the Eof token, so trailing tokens are
silently ignored — "1)" evaluates to 1 as if the close parenthesis were
not there. -/
theorem parse_stops_after_expr :
    (∀ (tokens : List Token) (v : ℚ) (p : ℕ),
      expr (6 * tokens.length + 6) tokens 0 = Except.ok (v, p) →
      parse tokens = Except.ok (v, p)) ∧
    evalString ("1)") = some (Except.ok 1) :=
  ⟨fun tokens v p h => by unfold parse; exact h, by with_unfolding_all rfl⟩

/-- C5 witness: expr alone accepts the leading number 2 of the token
sequence of "2)" and parse returns it, cursor resting at 1. -/
theorem parse_stops_after_expr_witness :
    parse [Token.Number 2, Token.CloseParent, Token.Eof] = Except.ok (2, 1) :=
  parse_stops_after_expr.1 [Token.Number 2, Token.CloseParent, Token.Eof] 2 1
    (by with_unfolding_all rfl)

/-- C6: multiplication binds tighter than addition ("2 + 3 * 4"
evaluates to 14) and parentheses override that precedence
("(2 + 3) * 4" evaluates to 20). -/
theorem precedence_and_parens :
    evalString ("2 + 3 * 4") = some (Except.ok 14) ∧
    evalString ("(2 + 3) * 4") = some (Except.ok 20) :=
  ⟨by with_unfolding_all rfl, by with_unfolding_all rfl⟩

/-- C7: same-precedence additive operators fold left-to-right:
"8 - 3 - 2" evaluates to (8 - 3) - 2 = 3, and in particular not to 7. -/
theorem subtraction_left_assoc :
    evalString ("8 - 3 - 2") = some (Except.ok 3) ∧
    evalString ("8 - 3 - 2") ≠ some (Except.ok 7) := by
  have h : evalString ("8 - 3 - 2") = some (Except.ok 3) := by with_unfolding_all rfl
  refine ⟨h, ?_⟩
  rw [h]
  intro hc
  have h3 := Except.ok.inj (Option.some.inj hc)
  norm_num at h3

/-- C8: exponentiation is right-associative: "2^3^2" evaluates to
2^(3^2) = 512, because factor recurses into itself on the right of the
caret; the left grouping would have given powf (powf 2 3) 2 = 64. -/
theorem caret_right_assoc :
    evalString ("2^3^2") = some (Except.ok 512) ∧
    powf (powf 2 3) 2 = 64 :=
  ⟨by with_unfolding_all rfl, by with_unfolding_all rfl⟩

/-- C9: the tokenizer inserts an implicit Star exactly when the last
emitted token is a Number or a CloseParent and the current character is an
open parenthesis, a digit, or a dot; consequently "2(3+4)" evaluates to 14
and "(2)(3)" evaluates to 6. -/
theorem implicit_star_condition :
    (∀ (last : Option Token) (c : Char),
      implicitStar last c = true ↔
        (((∃ q, last = some (Token.Number q)) ∨ last = some Token.CloseParent) ∧
          (c = '(' ∨ c.isDigit = true ∨ c = '.'))) ∧
    evalString ("2(3+4)") = some (Except.ok 14) ∧
    evalString ("(2)(3)") = some (Except.ok 6) :=
  ⟨implicit_star_iff, by with_unfolding_all rfl, by with_unfolding_all rfl⟩

/-- C9 witness: after a Number token, an open parenthesis triggers the
implicit Star. -/
theorem implicit_star_condition_witness :
    implicitStar (some (Token.Number 2)) '(' = true :=
  (implicit_star_condition.1 (some (Token.Number 2)) '(').mpr
    ⟨Or.inl ⟨2, rfl⟩, Or.inl rfl⟩

/-- C10: whenever tokenize returns a token sequence, the Eof token occurs
in it exactly once, and as the last element: the scan loop never emits Eof,
and tokenize appends exactly one at the end. -/
theorem tokenize_eof_last_unique (input : String) (ts : List Token)
    (h : tokenize input = some ts) :
    ts.count Token.Eof = 1 ∧ ts.getLast? = some Token.Eof := by
  unfold tokenize at h
  rcases Option.map_eq_some'.mp h with ⟨ts0, h0, rfl⟩
  have hno : Token.Eof ∉ ts0 := tokenizeLoop_no_eof _ _ _ _ h0 (by simp)
  constructor
  · rw [List.count_append]
    rw [List.count_eq_zero.mpr hno]
    simp
  · simp

/-- C10 witness: the token sequence of "1+2" carries a single Eof, in last
position. -/
theorem tokenize_eof_last_unique_witness :
    [Token.Number 1, Token.Plus, Token.Number 2, Token.Eof].count Token.Eof = 1 ∧
    [Token.Number 1, Token.Plus, Token.Number 2, Token.Eof].getLast? = some Token.Eof :=
  tokenize_eof_last_unique ("1+2") [Token.Number 1, Token.Plus, Token.Number 2, Token.Eof]
    (by with_unfolding_all rfl)

end Calculator
